import Mathlib

/-!
Verification of the core of `fast-eci` (`src/main.py`): an experiment that
estimates the inertial-to-Earth-fixed frame transform at times near a
reference epoch by composing a baseline exact transform (taken at the epoch)
with a single rotation about the Earth's polar axis, and aggregates the
resulting position/velocity errors and timings into a report.

Shallow embedding conventions:
* Times (`AbsoluteDate`) are rationals measuring seconds from an arbitrary
  origin; `shiftedBy` is addition and `durationFrom` is subtraction.
* 3-vectors are triples of rationals; position/velocity pairs are `PV`.
* The external Hipparchus/Orekit collaborators (orbit propagation,
  exact frame transforms, rotation application, distance, angle,
  radian-to-degree conversion) and the wall-clock durations of the two
  timed code paths are fields of an `Env` record: the core is verified for
  every environment, and concrete environments instantiate the theorems.
* Python floats become exact rationals.
-/

namespace FastEci

/-- The frames named in `main.py` (`getGCRF`, `getEME2000`, `getITRF`, `getTEME`). -/
inductive Frame where
  | gcrf
  | eme2000
  | itrf
  | teme
deriving DecidableEq, Repr

/-- A 3-vector (Hipparchus `Vector3D`), as a triple of rationals. -/
structure Vec3 where
  x : ℚ
  y : ℚ
  z : ℚ
deriving DecidableEq, Repr

/-- `Vector3D.PLUS_K`, the Earth polar axis used by `checkSample`. -/
def plusK : Vec3 := ⟨0, 0, 1⟩

/-- `Constants.WGS84_EARTH_ANGULAR_VELOCITY` = 7.292115e-5 rad/s. -/
def wgs84EarthAngularVelocity : ℚ := 7292115 / 100000000000

/-- Hipparchus `RotationConvention`: vector-operator or frame-transform. -/
inductive RotConv where
  | vectorOperator
  | frameTransform
deriving DecidableEq, Repr

/-- A Hipparchus `Rotation` as constructed in `checkSample`: an axis, an
angle in radians, and the convention flag.  Its action on vectors is an
external capability (`Env.rotApply`). -/
structure Rotation where
  axis : Vec3
  angle : ℚ
  conv : RotConv
deriving DecidableEq, Repr

/-- A position/velocity state (`PVCoordinates`). -/
structure PV where
  pos : Vec3
  vel : Vec3
deriving DecidableEq, Repr

/-- The transforms `checkSample` builds by hand: `Transform.IDENTITY`, or
`Transform(point, rotation)` — a rotation-only transform tagged with a date. -/
inductive Tx where
  | identity
  | rotAt (date : ℚ) (r : Rotation)
deriving DecidableEq, Repr

/-- The external collaborators consumed by the core, plus the wall-clock
durations of the two timed paths (indexed by loop iteration). -/
structure Env where
  /-- `pvProv.getPVCoordinates(time, frame)`. -/
  pv : ℚ → Frame → PV
  /-- `fromFrame.getTransformTo(toFrame, time).transformPVCoordinates`. -/
  exactTx : Frame → Frame → ℚ → PV → PV
  /-- `Rotation.applyTo` on a vector. -/
  rotApply : Rotation → Vec3 → Vec3
  /-- `Vector3D.distance`. -/
  dist : Vec3 → Vec3 → ℚ
  /-- `Vector3D.angle`, in radians. -/
  angle : Vec3 → Vec3 → ℚ
  /-- `FastMath.toDegrees`. -/
  toDegrees : ℚ → ℚ
  /-- Wall-clock duration `eStop - eStart` of the estimated path at loop index i. -/
  estDur : ℕ → ℚ
  /-- Wall-clock duration `aStop - aStart` of the exact path at loop index i. -/
  actDur : ℕ → ℚ

/-- `transformPVCoordinates` for the transforms of `Tx`: the identity leaves
the state unchanged; a rotation-only transform rotates position and velocity
(its date tag does not enter the application). -/
def Tx.apply (E : Env) : Tx → PV → PV
  | Tx.identity, p => p
  | Tx.rotAt _ r, p => ⟨E.rotApply r p.pos, E.rotApply r p.vel⟩

/-- One row of `checkSample`'s `results` list (`main.py` lines 122-127). -/
structure SampleResult where
  deltaTime : ℚ
  posError : ℚ
  velMagError : ℚ
  velAngError : ℚ
deriving DecidableEq, Repr

/-- Every quantity the `checkSample` loop body computes at one test point
(`main.py` lines 79-110), kept so that each intermediate is addressable. -/
structure PointEval where
  inertialPv : PV
  fixedPv : PV
  deltaTime : ℚ
  fixedTx : Tx
  estimatedFixedPv : PV
  actualFixedPv : PV
  deltaPosMag : ℚ
  deltaVelMag : ℚ
  deltaVelAng : ℚ
  deltaActPosMag : ℚ
  deltaActVelMag : ℚ
  deltaActVelAng : ℚ

/-- The body of `checkSample`'s loop (`main.py` lines 79-110), transliterated:
ground-truth states, the estimated transform (identity, or an incremental
polar-axis rotation when `deltaTime > 0`, applied after the baseline), the
independently recomputed exact transform, and the six error figures.
Note line 110: `deltaActVelAng` is computed from `estimatedFixedPv`, exactly
as `deltaVelAng` is, not from `actualFixedPv`. -/
def evalPoint (E : Env) (date : ℚ) (baselineInertialToFixed : PV → PV)
    (inertialFrame : Frame) (point : ℚ) : PointEval :=
  let inertialPv := E.pv point inertialFrame
  let fixedPv := E.pv point Frame.itrf
  let fixedTx0 := Tx.identity
  let deltaTime := point - date
  let fixedTx :=
    if deltaTime > 0 then
      Tx.rotAt point ⟨plusK, deltaTime * wgs84EarthAngularVelocity, RotConv.frameTransform⟩
    else fixedTx0
  let tmp := baselineInertialToFixed inertialPv
  let estimatedFixedPv := Tx.apply E fixedTx tmp
  let actualFixedPv := E.exactTx inertialFrame Frame.itrf point inertialPv
  let deltaPosMag := E.dist fixedPv.pos estimatedFixedPv.pos
  let deltaVelMag := E.dist fixedPv.vel estimatedFixedPv.vel
  let deltaVelAng := E.toDegrees (E.angle fixedPv.vel estimatedFixedPv.vel)
  let deltaActPosMag := E.dist fixedPv.pos actualFixedPv.pos
  let deltaActVelMag := E.dist fixedPv.vel actualFixedPv.vel
  let deltaActVelAng := E.toDegrees (E.angle fixedPv.vel estimatedFixedPv.vel)
  ⟨inertialPv, fixedPv, deltaTime, fixedTx, estimatedFixedPv, actualFixedPv,
   deltaPosMag, deltaVelMag, deltaVelAng, deltaActPosMag, deltaActVelMag, deltaActVelAng⟩

/-- The `SampleResult` row appended for one point (`main.py` lines 122-127). -/
def sampleOf (p : PointEval) : SampleResult :=
  ⟨p.deltaTime, p.deltaPosMag, p.deltaVelMag, p.deltaVelAng⟩

/-- `checkSample` (`main.py` lines 51-129): defaults the inertial frame to
GCRF, computes the baseline exact transform at the reference epoch, evaluates
the test points `date + i * testStep` for `i` in `[0, numTests)`, and returns
the sample rows plus the accumulated wall-clock times of both paths. -/
def checkSample (E : Env) (date : ℚ) (inertialFrameOpt : Option Frame)
    (numTests : ℕ) (testStep : ℚ) : List SampleResult × ℚ × ℚ :=
  let inertialFrame := inertialFrameOpt.getD Frame.gcrf
  let ecef := Frame.itrf
  let baselineInertialToFixed := E.exactTx inertialFrame ecef date
  let idxs := List.range numTests
  let results := idxs.map fun i : ℕ =>
    sampleOf (evalPoint E date baselineInertialToFixed inertialFrame (date + i * testStep))
  let estTime := (idxs.map E.estDur).sum
  let actTime := (idxs.map E.actDur).sum
  (results, estTime, actTime)

/-- One value of the `results` dict in `main` (lines 200-206): the bucket's
`deltaTime` plus the three `DescriptiveStatistics` accumulators, each modelled
as the list of values added so far (in order of addition). -/
structure Bucket where
  deltaTime : ℚ
  posError : List ℚ
  velMagError : List ℚ
  velAngError : List ℚ
deriving DecidableEq, Repr

/-- The bucket created when a key is first seen (`main.py` lines 201-206):
each `DescriptiveStatistics` is initialised with the one value. -/
def initBucket (d : SampleResult) : Bucket :=
  ⟨d.deltaTime, [d.posError], [d.velMagError], [d.velAngError]⟩

/-- The three `addValue` calls of `main.py` lines 208-210. -/
def addValues (d : SampleResult) (b : Bucket) : Bucket :=
  ⟨b.deltaTime, b.posError ++ [d.posError],
   b.velMagError ++ [d.velMagError], b.velAngError ++ [d.velAngError]⟩

/-- The grouping key `str(d['deltaTime'])` (`main.py` line 199).  Python's
`str` is injective on floats, so two samples share a key exactly when their
`deltaTime` values are equal; the key is modelled by that value itself. -/
def keyOf (d : SampleResult) : ℚ := d.deltaTime

/-- Lookup in the insertion-ordered `results` dict (`key in results`). -/
def findBucket (k : ℚ) : List (ℚ × Bucket) → Option Bucket
  | [] => none
  | (k', b) :: rest => if k' = k then some b else findBucket k rest

/-- In-place update of one key's bucket, preserving insertion order. -/
def setBucket (k : ℚ) (f : Bucket → Bucket) : List (ℚ × Bucket) → List (ℚ × Bucket)
  | [] => []
  | (k', b) :: rest => if k' = k then (k', f b) :: rest else (k', b) :: setBucket k f rest

/-- Processing one `SampleResult` in `main`'s inner loop (lines 198-210):
a fresh key is appended at the end of the dict (Python dicts preserve
insertion order), an existing key gets `addValue` on its three accumulators. -/
def aggStep (st : List (ℚ × Bucket)) (d : SampleResult) : List (ℚ × Bucket) :=
  match findBucket (keyOf d) st with
  | some _ => setBucket (keyOf d) (addValues d) st
  | none => st ++ [(keyOf d, initBucket d)]

/-- The statistics aggregator: fold `main`'s inner loop over a stream of
sample rows, starting from the empty dict. -/
def aggregate (l : List SampleResult) : List (ℚ × Bucket) :=
  l.foldl aggStep []

/-- The `posError` values accumulated under key `k` ([] when `k` is absent). -/
def posVals (k : ℚ) (st : List (ℚ × Bucket)) : List ℚ :=
  match findBucket k st with
  | none => []
  | some b => b.posError

/-- The `velMagError` values accumulated under key `k`. -/
def velMagVals (k : ℚ) (st : List (ℚ × Bucket)) : List ℚ :=
  match findBucket k st with
  | none => []
  | some b => b.velMagError

/-- The `velAngError` values accumulated under key `k`. -/
def velAngVals (k : ℚ) (st : List (ℚ × Bucket)) : List ℚ :=
  match findBucket k st with
  | none => []
  | some b => b.velAngError

/-- `DescriptiveStatistics.getMean`: the arithmetic mean of the stored values. -/
def mean (l : List ℚ) : ℚ := l.sum / l.length

/-- The square of `DescriptiveStatistics.getStandardDeviation`: the
bias-corrected sample variance (0 when fewer than two values are stored).
The standard deviation itself is its square root, so two lists with equal
sample variance have equal standard deviation. -/
def sampleVariance (l : List ℚ) : ℚ :=
  if l.length ≤ 1 then 0
  else ((l.map fun x => (x - mean l) ^ 2).sum) / ((l.length : ℚ) - 1)

/-- The per-sample data gathered by `main`'s outer loop (lines 185-210): each
reference epoch in `dates` contributes one `checkSample` row list, and the
rows are fed to the aggregator in order. -/
def runSamples (E : Env) (dates : List ℚ) (inertialFrameOpt : Option Frame)
    (numTests : ℕ) (testStep : ℚ) : List SampleResult :=
  (dates.map fun d => (checkSample E d inertialFrameOpt numTests testStep).1).flatten

/-- The `deltaTime` figures of the report lines, in the order
`for r in results.values()` prints them (`main.py` lines 212-216). -/
def reportDeltaTimes (st : List (ℚ × Bucket)) : List ℚ :=
  st.map fun kb => kb.2.deltaTime

/-- The percent-improvement figure of the report (`main.py` line 222):
`100. * (actualTime - estimateTime) / actualTime`.  When `actualTime = 0`
Python raises `ZeroDivisionError`, modelled as `none`. -/
def percentImprovement (actualTime estimateTime : ℚ) : Option ℚ :=
  if actualTime = 0 then none
  else some (100 * (actualTime - estimateTime) / actualTime)

/-- Modelled from the spec (§4.1): the incremental transform of the
Approximate Transform Estimator — a rotation about the Earth's polar axis by
angle `Δt × ω` in the frame-transform convention, tagged with the target
time. -/
def specIncrementalRotation (epoch targetTime : ℚ) : Tx :=
  Tx.rotAt targetTime
    ⟨plusK, (targetTime - epoch) * wgs84EarthAngularVelocity, RotConv.frameTransform⟩

/-- Modelled from the spec (§4.1): `approx = incremental ∘ baseline`, the
incremental rotation applied after the baseline exact transform. -/
def specApproxEstimate (E : Env) (baseline : PV → PV) (epoch targetTime : ℚ)
    (state : PV) : PV :=
  Tx.apply E (specIncrementalRotation epoch targetTime) (baseline state)

/-! ### Basic unfolding lemmas for `evalPoint` and `checkSample` -/

theorem evalPoint_inertialPv (E : Env) (date : ℚ) (b : PV → PV) (f : Frame) (pt : ℚ) :
    (evalPoint E date b f pt).inertialPv = E.pv pt f := rfl

theorem evalPoint_fixedPv (E : Env) (date : ℚ) (b : PV → PV) (f : Frame) (pt : ℚ) :
    (evalPoint E date b f pt).fixedPv = E.pv pt Frame.itrf := rfl

theorem evalPoint_deltaTime (E : Env) (date : ℚ) (b : PV → PV) (f : Frame) (pt : ℚ) :
    (evalPoint E date b f pt).deltaTime = pt - date := rfl

theorem evalPoint_fixedTx (E : Env) (date : ℚ) (b : PV → PV) (f : Frame) (pt : ℚ) :
    (evalPoint E date b f pt).fixedTx =
      if pt - date > 0 then
        Tx.rotAt pt ⟨plusK, (pt - date) * wgs84EarthAngularVelocity, RotConv.frameTransform⟩
      else Tx.identity := rfl

theorem evalPoint_estimatedFixedPv (E : Env) (date : ℚ) (b : PV → PV) (f : Frame) (pt : ℚ) :
    (evalPoint E date b f pt).estimatedFixedPv =
      Tx.apply E (evalPoint E date b f pt).fixedTx (b (E.pv pt f)) := rfl

theorem evalPoint_actualFixedPv (E : Env) (date : ℚ) (b : PV → PV) (f : Frame) (pt : ℚ) :
    (evalPoint E date b f pt).actualFixedPv = E.exactTx f Frame.itrf pt (E.pv pt f) := rfl

theorem evalPoint_deltaPosMag (E : Env) (date : ℚ) (b : PV → PV) (f : Frame) (pt : ℚ) :
    (evalPoint E date b f pt).deltaPosMag =
      E.dist (E.pv pt Frame.itrf).pos (evalPoint E date b f pt).estimatedFixedPv.pos := rfl

theorem evalPoint_deltaVelMag (E : Env) (date : ℚ) (b : PV → PV) (f : Frame) (pt : ℚ) :
    (evalPoint E date b f pt).deltaVelMag =
      E.dist (E.pv pt Frame.itrf).vel (evalPoint E date b f pt).estimatedFixedPv.vel := rfl

theorem evalPoint_deltaVelAng (E : Env) (date : ℚ) (b : PV → PV) (f : Frame) (pt : ℚ) :
    (evalPoint E date b f pt).deltaVelAng =
      E.toDegrees (E.angle (E.pv pt Frame.itrf).vel
        (evalPoint E date b f pt).estimatedFixedPv.vel) := rfl

theorem checkSample_results (E : Env) (date : ℚ) (fo : Option Frame) (n : ℕ) (s : ℚ) :
    (checkSample E date fo n s).1 = (List.range n).map fun i : ℕ =>
      sampleOf (evalPoint E date (E.exactTx (fo.getD Frame.gcrf) Frame.itrf date)
        (fo.getD Frame.gcrf) (date + i * s)) := rfl

theorem sampleOf_deltaTime (p : PointEval) : (sampleOf p).deltaTime = p.deltaTime := rfl

theorem sampleOf_posError (p : PointEval) : (sampleOf p).posError = p.deltaPosMag := rfl

theorem sampleOf_velMagError (p : PointEval) : (sampleOf p).velMagError = p.deltaVelMag := rfl

theorem sampleOf_velAngError (p : PointEval) : (sampleOf p).velAngError = p.deltaVelAng := rfl

/-! ### A concrete environment, used to instantiate the theorems

The collaborators here are simple exact-rational stand-ins: the propagator
answers the same state in every frame, the exact transform is the identity,
and distance/angle are squared-difference gauges that vanish on equal
vectors — enough
to satisfy the collaborator-consistency hypotheses of the theorems below. -/

def cEnv : Env where
  pv := fun t _ => ⟨⟨t, 0, 0⟩, ⟨1, 0, 0⟩⟩
  exactTx := fun _ _ _ p => p
  rotApply := fun r v => ⟨v.x + r.angle, v.y, v.z⟩
  dist := fun a b =>
    (a.x - b.x) * (a.x - b.x) + (a.y - b.y) * (a.y - b.y) + (a.z - b.z) * (a.z - b.z)
  angle := fun a b =>
    (a.x - b.x) * (a.x - b.x) + (a.y - b.y) * (a.y - b.y) + (a.z - b.z) * (a.z - b.z)
  toDegrees := fun x => 60 * x
  estDur := fun _ => 1 / 100
  actDur := fun _ => 1 / 10

/-! ### Claims C1, C2, C4, C5 -/

/-- Claim C1: for a test offset `Δt = point - date > 0`, the estimated
Earth-fixed state produced inside `checkSample`'s loop is the baseline exact
transform (computed at the reference epoch) applied to the inertial state,
followed by the incremental rotation about `+K` by `Δt × ω` in the
frame-transform convention, tagged with the target time: the spec-side
composition `approx = incremental ∘ baseline`. -/
theorem approx_is_incremental_after_baseline (E : Env) (date : ℚ)
    (inertialFrame : Frame) (point : ℚ) (h : 0 < point - date) :
    (evalPoint E date (E.exactTx inertialFrame Frame.itrf date) inertialFrame
        point).estimatedFixedPv =
      specApproxEstimate E (E.exactTx inertialFrame Frame.itrf date) date point
        ((evalPoint E date (E.exactTx inertialFrame Frame.itrf date) inertialFrame
          point).inertialPv) := by
  rw [evalPoint_estimatedFixedPv, evalPoint_fixedTx, evalPoint_inertialPv, if_pos h]
  rfl

/-- Witness for C1 at a concrete environment and a strictly positive offset. -/
theorem approx_is_incremental_after_baseline_witness :
    (evalPoint cEnv 0 (cEnv.exactTx Frame.gcrf Frame.itrf 0) Frame.gcrf
        10).estimatedFixedPv =
      specApproxEstimate cEnv (cEnv.exactTx Frame.gcrf Frame.itrf 0) 0 10
        ((evalPoint cEnv 0 (cEnv.exactTx Frame.gcrf Frame.itrf 0) Frame.gcrf
          10).inertialPv) :=
  approx_is_incremental_after_baseline cEnv 0 Frame.gcrf 10 (by norm_num)

/-- Claim C2: for a test offset `Δt = point - date ≤ 0`, the incremental
transform is the identity, so the estimated Earth-fixed state is the baseline
transform applied alone; in particular at `Δt = 0` the estimate coincides
with the baseline. -/
theorem nonpositive_offset_estimate_is_baseline (E : Env) (date : ℚ)
    (inertialFrame : Frame) (point : ℚ) (h : point - date ≤ 0) :
    (evalPoint E date (E.exactTx inertialFrame Frame.itrf date) inertialFrame
        point).fixedTx = Tx.identity ∧
    (evalPoint E date (E.exactTx inertialFrame Frame.itrf date) inertialFrame
        point).estimatedFixedPv =
      E.exactTx inertialFrame Frame.itrf date
        ((evalPoint E date (E.exactTx inertialFrame Frame.itrf date) inertialFrame
          point).inertialPv) := by
  have h' : ¬ (point - date > 0) := not_lt.mpr h
  refine ⟨?_, ?_⟩
  · rw [evalPoint_fixedTx, if_neg h']
  · rw [evalPoint_estimatedFixedPv, evalPoint_fixedTx, evalPoint_inertialPv, if_neg h']
    rfl

/-- Witness for C2 at a concrete environment and offset 0. -/
theorem nonpositive_offset_estimate_is_baseline_witness :
    (evalPoint cEnv 5 (cEnv.exactTx Frame.gcrf Frame.itrf 5) Frame.gcrf
        5).fixedTx = Tx.identity ∧
    (evalPoint cEnv 5 (cEnv.exactTx Frame.gcrf Frame.itrf 5) Frame.gcrf
        5).estimatedFixedPv =
      cEnv.exactTx Frame.gcrf Frame.itrf 5
        ((evalPoint cEnv 5 (cEnv.exactTx Frame.gcrf Frame.itrf 5) Frame.gcrf
          5).inertialPv) :=
  nonpositive_offset_estimate_is_baseline cEnv 5 Frame.gcrf 5 (by norm_num)

/-- Claim C3: a sample row of `checkSample` whose offset `Δt` is 0 has zero
position, velocity-magnitude and velocity-angle errors, provided the
collaborators are mutually consistent (the propagator's Earth-fixed answer at
the epoch is the exact transform applied to its inertial answer) and the
distance/angle/degree primitives vanish on equal inputs.  In the exact
rational model the errors are exactly 0. -/
theorem zero_offset_sample_has_zero_errors (E : Env) (date : ℚ)
    (fo : Option Frame) (numTests : ℕ) (testStep : ℚ)
    (hcons : E.pv date Frame.itrf =
      E.exactTx (fo.getD Frame.gcrf) Frame.itrf date (E.pv date (fo.getD Frame.gcrf)))
    (hdist : ∀ v, E.dist v v = 0) (hangle : ∀ v, E.angle v v = 0)
    (hdeg : E.toDegrees 0 = 0)
    (r : SampleResult) (hr : r ∈ (checkSample E date fo numTests testStep).1)
    (h0 : r.deltaTime = 0) :
    r.posError = 0 ∧ r.velMagError = 0 ∧ r.velAngError = 0 := by
  rw [checkSample_results] at hr
  obtain ⟨i, hi, rfl⟩ := List.mem_map.mp hr
  have h0' : (date + (i : ℚ) * testStep) - date = 0 := h0
  have key : date + (i : ℚ) * testStep = date := by linarith
  rw [key] at h0' ⊢
  have hest : (evalPoint E date (E.exactTx (fo.getD Frame.gcrf) Frame.itrf date)
      (fo.getD Frame.gcrf) date).estimatedFixedPv = E.pv date Frame.itrf := by
    rw [evalPoint_estimatedFixedPv, evalPoint_fixedTx,
      if_neg (by norm_num : ¬ ((date - date : ℚ) > 0))]
    exact hcons.symm
  refine ⟨?_, ?_, ?_⟩
  · rw [sampleOf_posError, evalPoint_deltaPosMag, hest]
    exact hdist _
  · rw [sampleOf_velMagError, evalPoint_deltaVelMag, hest]
    exact hdist _
  · rw [sampleOf_velAngError, evalPoint_deltaVelAng, hest, hangle, hdeg]

/-- Witness for C3: in the concrete environment the single sample of a
one-test run sits at offset 0 and indeed carries zero errors. -/
theorem zero_offset_sample_has_zero_errors_witness :
    (⟨0, 0, 0, 0⟩ : SampleResult).posError = 0 ∧
    (⟨0, 0, 0, 0⟩ : SampleResult).velMagError = 0 ∧
    (⟨0, 0, 0, 0⟩ : SampleResult).velAngError = 0 :=
  zero_offset_sample_has_zero_errors cEnv 5 none 1 10 rfl
    (fun v => by simp [cEnv])
    (fun v => by simp [cEnv])
    (by simp [cEnv])
    ⟨0, 0, 0, 0⟩
    (by norm_num [checkSample, evalPoint, sampleOf, cEnv, Tx.apply])
    rfl

/-- Claim C4: `deltaActVelAng` (`main.py` line 110) is computed from the same
vector pair as `deltaVelAng` (the ground-truth velocity against the
*estimated* velocity), so the two always coincide; moreover there is an
environment in which this differs from the angle against the
actual-transform velocity `actualFixedPv`, so the code is not comparing
against the actual velocity. -/
theorem deltaActVelAng_is_copy_of_deltaVelAng :
    (∀ (E : Env) (date : ℚ) (b : PV → PV) (f : Frame) (pt : ℚ),
      (evalPoint E date b f pt).deltaActVelAng = (evalPoint E date b f pt).deltaVelAng) ∧
    (∃ (E : Env) (date : ℚ) (b : PV → PV) (f : Frame) (pt : ℚ),
      (evalPoint E date b f pt).deltaActVelAng ≠
        E.toDegrees (E.angle (evalPoint E date b f pt).fixedPv.vel
          (evalPoint E date b f pt).actualFixedPv.vel)) := by
  refine ⟨fun E date b f pt => rfl, ?_⟩
  refine ⟨cEnv, 0, (fun p => ⟨p.pos, ⟨5, 0, 0⟩⟩), Frame.gcrf, 0, ?_⟩
  norm_num [evalPoint, cEnv, Tx.apply]

/-- Claim C5: at `actualTime = 0` (a run with zero samples) the report's
percent-improvement line performs `100. * (actualTime - estimateTime) /
actualTime`, which in Python raises `ZeroDivisionError` (modelled as `none`):
the code crashes instead of reporting the figure as undefined. -/
theorem percent_improvement_zero_actual_crashes :
    percentImprovement 0 0 = none := rfl

/-! ### Dictionary lemmas for the aggregator -/

theorem findBucket_setBucket_self (k : ℚ) (f : Bucket → Bucket) :
    ∀ st : List (ℚ × Bucket), findBucket k (setBucket k f st) = (findBucket k st).map f := by
  intro st
  induction st with
  | nil => rfl
  | cons hd tl ih =>
    obtain ⟨k', b⟩ := hd
    by_cases h : k' = k <;> simp [findBucket, setBucket, h, ih]

theorem findBucket_setBucket_ne (k k0 : ℚ) (f : Bucket → Bucket) (h : k0 ≠ k) :
    ∀ st : List (ℚ × Bucket), findBucket k (setBucket k0 f st) = findBucket k st := by
  intro st
  induction st with
  | nil => rfl
  | cons hd tl ih =>
    obtain ⟨k', b⟩ := hd
    by_cases h1 : k' = k0
    · subst h1
      simp [findBucket, setBucket, h, ih]
    · by_cases h2 : k' = k <;> simp [findBucket, setBucket, h1, h2, ih, Ne.symm h]

theorem findBucket_append_of_some (k : ℚ) (b : Bucket) (l : List (ℚ × Bucket)) :
    ∀ st : List (ℚ × Bucket), findBucket k st = some b →
      findBucket k (st ++ l) = some b := by
  intro st
  induction st with
  | nil => intro h; exact absurd h (by simp [findBucket])
  | cons hd tl ih =>
    obtain ⟨k', b'⟩ := hd
    intro h
    by_cases h2 : k' = k
    · simpa [findBucket, h2] using h
    · simp only [List.cons_append, findBucket, if_neg h2] at h ⊢
      exact ih h

theorem findBucket_append_of_none (k : ℚ) (l : List (ℚ × Bucket)) :
    ∀ st : List (ℚ × Bucket), findBucket k st = none →
      findBucket k (st ++ l) = findBucket k l := by
  intro st
  induction st with
  | nil => intro _; rfl
  | cons hd tl ih =>
    obtain ⟨k', b'⟩ := hd
    intro h
    by_cases h2 : k' = k
    · simp [findBucket, h2] at h
    · simp only [List.cons_append, findBucket, if_neg h2] at h ⊢
      exact ih h

theorem vals_aggStep (st : List (ℚ × Bucket)) (d : SampleResult) (k : ℚ) :
    (posVals k (aggStep st d) =
      if d.deltaTime = k then posVals k st ++ [d.posError] else posVals k st) ∧
    (velMagVals k (aggStep st d) =
      if d.deltaTime = k then velMagVals k st ++ [d.velMagError] else velMagVals k st) ∧
    (velAngVals k (aggStep st d) =
      if d.deltaTime = k then velAngVals k st ++ [d.velAngError] else velAngVals k st) := by
  rcases h : findBucket (keyOf d) st with _ | b
  · simp only [aggStep, h]
    by_cases hk : d.deltaTime = k
    · have hk' : keyOf d = k := hk
      subst hk'
      refine ⟨?_, ?_, ?_⟩ <;>
        simp [posVals, velMagVals, velAngVals, findBucket_append_of_none _ _ _ h,
          findBucket, initBucket, h, hk]
    · have hk' : ¬ (keyOf d = k) := hk
      rcases h2 : findBucket k st with _ | b'
      · refine ⟨?_, ?_, ?_⟩ <;>
          simp [posVals, velMagVals, velAngVals, findBucket_append_of_none _ _ _ h2,
            findBucket, hk, hk', h2]
      · refine ⟨?_, ?_, ?_⟩ <;>
          simp [posVals, velMagVals, velAngVals, findBucket_append_of_some _ _ _ _ h2,
            hk, h2]
  · simp only [aggStep, h]
    by_cases hk : d.deltaTime = k
    · have hk' : keyOf d = k := hk
      subst hk'
      refine ⟨?_, ?_, ?_⟩ <;>
        simp [posVals, velMagVals, velAngVals, findBucket_setBucket_self, hk, h, addValues]
    · have hk' : keyOf d ≠ k := hk
      refine ⟨?_, ?_, ?_⟩ <;>
        simp [posVals, velMagVals, velAngVals, findBucket_setBucket_ne _ _ _ hk', hk]

theorem vals_foldl (l : List SampleResult) :
    ∀ (st : List (ℚ × Bucket)) (k : ℚ),
      (posVals k (List.foldl aggStep st l) =
        posVals k st ++ (l.filter fun d => decide (d.deltaTime = k)).map SampleResult.posError) ∧
      (velMagVals k (List.foldl aggStep st l) =
        velMagVals k st ++ (l.filter fun d => decide (d.deltaTime = k)).map SampleResult.velMagError) ∧
      (velAngVals k (List.foldl aggStep st l) =
        velAngVals k st ++ (l.filter fun d => decide (d.deltaTime = k)).map SampleResult.velAngError) := by
  induction l with
  | nil => intro st k; simp
  | cons d l ih =>
    intro st k
    obtain ⟨s1, s2, s3⟩ := vals_aggStep st d k
    obtain ⟨i1, i2, i3⟩ := ih (aggStep st d) k
    rw [List.foldl_cons]
    by_cases hk : d.deltaTime = k
    · refine ⟨?_, ?_, ?_⟩ <;>
        simp [i1, i2, i3, s1, s2, s3, hk]
    · refine ⟨?_, ?_, ?_⟩ <;>
        simp [i1, i2, i3, s1, s2, s3, hk]

theorem posVals_aggregate (l : List SampleResult) (k : ℚ) :
    posVals k (aggregate l) =
      (l.filter fun d => decide (d.deltaTime = k)).map SampleResult.posError := by
  have h := (vals_foldl l [] k).1
  simpa [aggregate, posVals, findBucket] using h

theorem velMagVals_aggregate (l : List SampleResult) (k : ℚ) :
    velMagVals k (aggregate l) =
      (l.filter fun d => decide (d.deltaTime = k)).map SampleResult.velMagError := by
  have h := (vals_foldl l [] k).2.1
  simpa [aggregate, velMagVals, findBucket] using h

theorem velAngVals_aggregate (l : List SampleResult) (k : ℚ) :
    velAngVals k (aggregate l) =
      (l.filter fun d => decide (d.deltaTime = k)).map SampleResult.velAngError := by
  have h := (vals_foldl l [] k).2.2
  simpa [aggregate, velAngVals, findBucket] using h

/-! ### Mean and sample variance are invariant under permutation -/

theorem mean_perm {l1 l2 : List ℚ} (h : l1.Perm l2) : mean l1 = mean l2 := by
  unfold mean
  rw [h.sum_eq, h.length_eq]

theorem sampleVariance_perm {l1 l2 : List ℚ} (h : l1.Perm l2) :
    sampleVariance l1 = sampleVariance l2 := by
  unfold sampleVariance
  rw [h.length_eq, mean_perm h, (h.map fun x => (x - mean l2) ^ 2).sum_eq]

/-! ### Claims C6 and C7 -/

/-- Claim C6: feeding a multiset of sample rows to the aggregator in any
permutation yields, for every `deltaTime` key, the same mean and the same
(sample) variance — hence the same standard deviation, which is the square
root of that variance — for all three error statistics; and each key's
accumulator holds exactly the values of the rows added with that key. -/
theorem aggregation_order_independent (l1 l2 : List SampleResult)
    (hp : l1.Perm l2) (k : ℚ) :
    (mean (posVals k (aggregate l1)) = mean (posVals k (aggregate l2)) ∧
     sampleVariance (posVals k (aggregate l1)) = sampleVariance (posVals k (aggregate l2)) ∧
     mean (velMagVals k (aggregate l1)) = mean (velMagVals k (aggregate l2)) ∧
     sampleVariance (velMagVals k (aggregate l1)) =
       sampleVariance (velMagVals k (aggregate l2)) ∧
     mean (velAngVals k (aggregate l1)) = mean (velAngVals k (aggregate l2)) ∧
     sampleVariance (velAngVals k (aggregate l1)) =
       sampleVariance (velAngVals k (aggregate l2))) ∧
    (posVals k (aggregate l1) =
       (l1.filter fun d => decide (d.deltaTime = k)).map SampleResult.posError ∧
     velMagVals k (aggregate l1) =
       (l1.filter fun d => decide (d.deltaTime = k)).map SampleResult.velMagError ∧
     velAngVals k (aggregate l1) =
       (l1.filter fun d => decide (d.deltaTime = k)).map SampleResult.velAngError) := by
  have hfil := hp.filter fun d => decide (d.deltaTime = k)
  have hpos : (posVals k (aggregate l1)).Perm (posVals k (aggregate l2)) := by
    rw [posVals_aggregate, posVals_aggregate]
    exact hfil.map _
  have hvm : (velMagVals k (aggregate l1)).Perm (velMagVals k (aggregate l2)) := by
    rw [velMagVals_aggregate, velMagVals_aggregate]
    exact hfil.map _
  have hva : (velAngVals k (aggregate l1)).Perm (velAngVals k (aggregate l2)) := by
    rw [velAngVals_aggregate, velAngVals_aggregate]
    exact hfil.map _
  exact ⟨⟨mean_perm hpos, sampleVariance_perm hpos, mean_perm hvm,
      sampleVariance_perm hvm, mean_perm hva, sampleVariance_perm hva⟩,
    posVals_aggregate l1 k, velMagVals_aggregate l1 k, velAngVals_aggregate l1 k⟩

/-- Witness for C6: swapping two rows with key 30 leaves the bucket's
posError mean unchanged. -/
theorem aggregation_order_independent_witness :
    mean (posVals 30 (aggregate [⟨30, 2, 0, 0⟩, ⟨30, 4, 0, 0⟩])) =
      mean (posVals 30 (aggregate [⟨30, 4, 0, 0⟩, ⟨30, 2, 0, 0⟩])) :=
  (aggregation_order_independent [⟨30, 2, 0, 0⟩, ⟨30, 4, 0, 0⟩]
    [⟨30, 4, 0, 0⟩, ⟨30, 2, 0, 0⟩] (List.Perm.swap _ _ _) 30).1.1

/-- Claim C7: aggregating exactly two sample rows keyed `deltaTime = 30`, one
per reference epoch, with posError values 2 and 4, makes the 30-second bucket
report posError mean 3. -/
theorem two_epoch_bucket_mean :
    mean (posVals 30 (aggregate ([⟨30, 2, 0, 0⟩] ++ [⟨30, 4, 0, 0⟩]))) = 3 := by
  norm_num [aggregate, aggStep, keyOf, findBucket, setBucket, initBucket, addValues,
    posVals, mean, List.foldl]

/-! ### Claims C8 and C10 -/

/-- Claim C8: every sample row emitted by `checkSample` has
`deltaTime = i * testStep` for some `i` with `0 ≤ i < numTests`, and the
grouping key is a function of `deltaTime` alone, so rows with equal offsets —
from whatever reference epoch — land in the same bucket. -/
theorem sample_offsets_are_step_multiples (E : Env) (date : ℚ) (fo : Option Frame)
    (numTests : ℕ) (testStep : ℚ) (r : SampleResult)
    (hr : r ∈ (checkSample E date fo numTests testStep).1) :
    (∃ i : ℕ, i < numTests ∧ r.deltaTime = (i : ℚ) * testStep) ∧
    (∀ r' : SampleResult, r'.deltaTime = r.deltaTime → keyOf r' = keyOf r) := by
  rw [checkSample_results] at hr
  obtain ⟨i, hi, rfl⟩ := List.mem_map.mp hr
  refine ⟨⟨i, List.mem_range.mp hi, ?_⟩, fun r' h => h⟩
  show (date + (i : ℚ) * testStep) - date = (i : ℚ) * testStep
  ring

/-- Witness for C8: the single row of a one-test run sits at offset
`0 * testStep`. -/
theorem sample_offsets_are_step_multiples_witness :
    (∃ i : ℕ, i < 1 ∧ (⟨0, 0, 0, 0⟩ : SampleResult).deltaTime = (i : ℚ) * 10) ∧
    (∀ r' : SampleResult,
      r'.deltaTime = (⟨0, 0, 0, 0⟩ : SampleResult).deltaTime →
        keyOf r' = keyOf ⟨0, 0, 0, 0⟩) :=
  sample_offsets_are_step_multiples cEnv 5 none 1 10 ⟨0, 0, 0, 0⟩
    (by norm_num [checkSample, evalPoint, sampleOf, cEnv, Tx.apply])

/-- Claim C10: `checkSample` returns exactly `numTests` sample rows — one per
generated offset, in generation order, each a `SampleResult` with the four
fields `deltaTime`, `posError`, `velMagError`, `velAngError` — and a run with
`numTests = 0` returns the empty list with zero accumulated time on both
paths. -/
theorem checkSample_shape (E : Env) (date : ℚ) (fo : Option Frame)
    (numTests : ℕ) (testStep : ℚ) :
    ((checkSample E date fo numTests testStep).1.map SampleResult.deltaTime =
      (List.range numTests).map fun i : ℕ => (i : ℚ) * testStep) ∧
    (checkSample E date fo numTests testStep).1.length = numTests ∧
    (numTests = 0 → checkSample E date fo numTests testStep = ([], 0, 0)) := by
  refine ⟨?_, ?_, ?_⟩
  · rw [checkSample_results, List.map_map]
    refine List.map_congr_left fun i _ => ?_
    show (date + (i : ℚ) * testStep) - date = (i : ℚ) * testStep
    ring
  · rw [checkSample_results, List.length_map, List.length_range]
  · intro h
    subst h
    rfl

/-- Witness for C10: a zero-test run returns no rows and zero time totals. -/
theorem checkSample_shape_witness : checkSample cEnv 0 none 0 10 = ([], 0, 0) :=
  (checkSample_shape cEnv 0 none 0 10).2.2 rfl

/-! ### Key order of the aggregated dictionary (for the report) -/

theorem setBucket_keys (k : ℚ) (f : Bucket → Bucket) :
    ∀ st : List (ℚ × Bucket), (setBucket k f st).map Prod.fst = st.map Prod.fst := by
  intro st
  induction st with
  | nil => rfl
  | cons hd tl ih =>
    obtain ⟨k', b⟩ := hd
    by_cases h : k' = k <;> simp [setBucket, h, ih]

theorem findBucket_eq_none_iff (k : ℚ) :
    ∀ st : List (ℚ × Bucket), findBucket k st = none ↔ k ∉ st.map Prod.fst := by
  intro st
  induction st with
  | nil => simp [findBucket]
  | cons hd tl ih =>
    obtain ⟨k', b⟩ := hd
    by_cases h : k' = k
    · subst h
      simp [findBucket]
    · simp [findBucket, h, ih, Ne.symm h]

theorem aggStep_keys (st : List (ℚ × Bucket)) (d : SampleResult) :
    (aggStep st d).map Prod.fst =
      if keyOf d ∈ st.map Prod.fst then st.map Prod.fst
      else st.map Prod.fst ++ [keyOf d] := by
  rcases h : findBucket (keyOf d) st with _ | b
  · have hm := (findBucket_eq_none_iff _ st).mp h
    simp [aggStep, h, hm]
  · have hm : keyOf d ∈ st.map Prod.fst := by
      by_contra hm
      rw [(findBucket_eq_none_iff _ st).mpr hm] at h
      exact Option.noConfusion h
    simp [aggStep, h, hm, setBucket_keys]

theorem foldl_aggStep_keys_fresh :
    ∀ (l : List SampleResult) (st : List (ℚ × Bucket)),
      (∀ d ∈ l, keyOf d ∉ st.map Prod.fst) → (l.map keyOf).Nodup →
      (List.foldl aggStep st l).map Prod.fst = st.map Prod.fst ++ l.map keyOf := by
  intro l
  induction l with
  | nil =>
    intro st _ _
    simp
  | cons d l ih =>
    intro st hfresh hnd
    rw [List.foldl_cons]
    have h1 : (aggStep st d).map Prod.fst = st.map Prod.fst ++ [keyOf d] := by
      rw [aggStep_keys, if_neg (hfresh d (List.mem_cons_self d l))]
    have hnd' := List.nodup_cons.mp hnd
    have hfresh' : ∀ d' ∈ l, keyOf d' ∉ (aggStep st d).map Prod.fst := by
      intro d' hd'
      rw [h1]
      intro hmem
      rcases List.mem_append.mp hmem with hmem | hmem
      · exact hfresh d' (List.mem_cons_of_mem _ hd') hmem
      · rw [List.mem_singleton] at hmem
        exact hnd'.1 (hmem ▸ List.mem_map_of_mem keyOf hd')
    rw [ih (aggStep st d) hfresh' hnd'.2, h1, List.map_cons]
    simp

theorem foldl_aggStep_keys_existing :
    ∀ (l : List SampleResult) (st : List (ℚ × Bucket)),
      (∀ d ∈ l, keyOf d ∈ st.map Prod.fst) →
      (List.foldl aggStep st l).map Prod.fst = st.map Prod.fst := by
  intro l
  induction l with
  | nil =>
    intro st _
    rfl
  | cons d l ih =>
    intro st hmem
    rw [List.foldl_cons]
    have h1 : (aggStep st d).map Prod.fst = st.map Prod.fst := by
      rw [aggStep_keys, if_pos (hmem d (List.mem_cons_self d l))]
    rw [ih (aggStep st d)
      (fun d' hd' => h1 ▸ hmem d' (List.mem_cons_of_mem _ hd')), h1]

theorem setBucket_preserves_deltaTime (k : ℚ) (f : Bucket → Bucket)
    (hf : ∀ b, (f b).deltaTime = b.deltaTime) :
    ∀ st : List (ℚ × Bucket), (∀ kb ∈ st, (kb : ℚ × Bucket).2.deltaTime = kb.1) →
      ∀ kb ∈ setBucket k f st, kb.2.deltaTime = kb.1 := by
  intro st
  induction st with
  | nil =>
    intro _ kb hkb
    exact absurd hkb (List.not_mem_nil kb)
  | cons hd tl ih =>
    obtain ⟨k', b⟩ := hd
    intro h kb hkb
    by_cases hc : k' = k
    · simp only [setBucket, if_pos hc] at hkb
      rcases List.mem_cons.mp hkb with rfl | hkb
      · show (f b).deltaTime = k'
        rw [hf b]
        exact h (k', b) (List.mem_cons_self _ _)
      · exact h kb (List.mem_cons_of_mem _ hkb)
    · simp only [setBucket, if_neg hc] at hkb
      rcases List.mem_cons.mp hkb with rfl | hkb
      · exact h (k', b) (List.mem_cons_self _ _)
      · exact ih (fun kb2 h2 => h kb2 (List.mem_cons_of_mem _ h2)) kb hkb

theorem aggStep_preserves_deltaTime (st : List (ℚ × Bucket)) (d : SampleResult)
    (h : ∀ kb ∈ st, (kb : ℚ × Bucket).2.deltaTime = kb.1) :
    ∀ kb ∈ aggStep st d, (kb : ℚ × Bucket).2.deltaTime = kb.1 := by
  intro kb hkb
  rcases hfb : findBucket (keyOf d) st with _ | b
  · simp only [aggStep, hfb] at hkb
    rcases List.mem_append.mp hkb with hkb | hkb
    · exact h kb hkb
    · rw [List.mem_singleton] at hkb
      subst hkb
      rfl
  · simp only [aggStep, hfb] at hkb
    exact setBucket_preserves_deltaTime (keyOf d) (addValues d) (fun _ => rfl) st h kb hkb

theorem aggregate_deltaTime_eq_key (l : List SampleResult) :
    ∀ kb ∈ aggregate l, (kb : ℚ × Bucket).2.deltaTime = kb.1 := by
  have gen : ∀ (l : List SampleResult) (st : List (ℚ × Bucket)),
      (∀ kb ∈ st, (kb : ℚ × Bucket).2.deltaTime = kb.1) →
      ∀ kb ∈ List.foldl aggStep st l, kb.2.deltaTime = kb.1 := by
    intro l
    induction l with
    | nil => intro st h; exact h
    | cons d l ih =>
      intro st h
      rw [List.foldl_cons]
      exact ih _ (aggStep_preserves_deltaTime st d h)
  exact gen l [] (fun kb hkb => absurd hkb (List.not_mem_nil kb))

theorem checkSample_keys (E : Env) (date : ℚ) (fo : Option Frame) (n : ℕ) (s : ℚ) :
    ((checkSample E date fo n s).1).map keyOf =
      (List.range n).map fun i : ℕ => (i : ℚ) * s := by
  rw [checkSample_results, List.map_map]
  refine List.map_congr_left fun i _ => ?_
  show (date + (i : ℚ) * s) - date = (i : ℚ) * s
  ring

theorem stepMultiples_pairwise (n : ℕ) (s : ℚ) (hs : 0 < s) :
    ((List.range n).map fun i : ℕ => (i : ℚ) * s).Pairwise (· < ·) := by
  refine List.Pairwise.map _ ?_ (List.pairwise_lt_range n)
  intro a b hab
  have hq : (a : ℚ) < b := by exact_mod_cast hab
  exact mul_lt_mul_of_pos_right hq hs

theorem stepMultiples_nodup (n : ℕ) (s : ℚ) (hs : 0 < s) :
    ((List.range n).map fun i : ℕ => (i : ℚ) * s).Nodup :=
  (stepMultiples_pairwise n s hs).imp fun h => ne_of_lt h

/-! ### Claim C9 -/

/-- Claim C9: when every reference epoch runs the same positive `testStep`
and the same `numTests`, the report lines — printed in the insertion order of
the `results` dict — carry strictly increasing `deltaTime` values: the first
epoch inserts the keys `0, testStep, 2·testStep, …` in ascending order and
later epochs only update existing keys. -/
theorem report_lines_ascending (E : Env) (dates : List ℚ) (fo : Option Frame)
    (numTests : ℕ) (testStep : ℚ) (hs : 0 < testStep) :
    List.Chain' (· < ·)
      (reportDeltaTimes (aggregate (runSamples E dates fo numTests testStep))) := by
  have hreport :
      reportDeltaTimes (aggregate (runSamples E dates fo numTests testStep)) =
        (aggregate (runSamples E dates fo numTests testStep)).map Prod.fst := by
    unfold reportDeltaTimes
    exact List.map_congr_left fun kb hkb =>
      aggregate_deltaTime_eq_key (runSamples E dates fo numTests testStep) kb hkb
  rw [hreport]
  cases dates with
  | nil => simp [runSamples, aggregate]
  | cons d0 rest =>
    have hflat : runSamples E (d0 :: rest) fo numTests testStep =
        (checkSample E d0 fo numTests testStep).1 ++
          (rest.map fun d => (checkSample E d fo numTests testStep).1).flatten := by
      simp [runSamples]
    rw [hflat]
    unfold aggregate
    rw [List.foldl_append]
    have hkeys0 :
        (List.foldl aggStep [] (checkSample E d0 fo numTests testStep).1).map Prod.fst =
          (List.range numTests).map fun i : ℕ => (i : ℚ) * testStep := by
      have hfr := foldl_aggStep_keys_fresh (checkSample E d0 fo numTests testStep).1 []
        (by intro d _ hmem; exact absurd hmem (List.not_mem_nil _))
        (by rw [checkSample_keys]; exact stepMultiples_nodup numTests testStep hs)
      rw [checkSample_keys] at hfr
      simpa using hfr
    have hall : ∀ d ∈ (rest.map fun d => (checkSample E d fo numTests testStep).1).flatten,
        keyOf d ∈
          (List.foldl aggStep [] (checkSample E d0 fo numTests testStep).1).map Prod.fst := by
      intro d hd
      rw [hkeys0]
      obtain ⟨lsub, hlsub, hdl⟩ := List.mem_flatten.mp hd
      obtain ⟨dd, _, rfl⟩ := List.mem_map.mp hlsub
      rw [← checkSample_keys E dd fo numTests testStep]
      exact List.mem_map_of_mem keyOf hdl
    rw [foldl_aggStep_keys_existing _ _ hall, hkeys0]
    exact (stepMultiples_pairwise numTests testStep hs).chain'

/-- Witness for C9: two epochs, two tests of 10 s each — the report's
`deltaTime` column is strictly increasing. -/
theorem report_lines_ascending_witness :
    List.Chain' (· < ·)
      (reportDeltaTimes (aggregate (runSamples cEnv [0, 60] none 2 10))) :=
  report_lines_ascending cEnv [0, 60] none 2 10 (by norm_num)

end FastEci
